import Mathlib

/-!
# helm build / helm up: manifest resolution, image builds and the watch loop

A shallow embedding of `cmd/helm/build.go` and `cmd/helm/up.go`.

The Go code talks to the operating system, to Docker and to the release
server.  Every such call is recorded, in program order, in the `trace` of a
`World`; what the outside answers is given by an `Env`, whose fields are
arbitrary functions of the history of calls made so far (the call being
answered included).  Theorems quantify over every `Env`, hence over every
behaviour of the outside.
-/

namespace Helm

/-! ## Go standard library: `path/filepath` on Unix

These functions are not part of the repository.  They are modelled on the
elements of a path (the runs of characters between separators), following the
behaviour of the Go implementation. -/

/-- The elements of a path: the runs of characters between separators `/`. -/
def splitElems : List Char → List (List Char)
  | [] => [[]]
  | c :: cs =>
    if c = '/' then [] :: splitElems cs
    else
      match splitElems cs with
      | [] => [[c]]
      | e :: es => (c :: e) :: es

/-- Elements joined by single separators. -/
def joinElems : List (List Char) → List Char
  | [] => []
  | [e] => e
  | e :: es => e ++ '/' :: joinElems es

/-- One element processed by `filepath.Clean`; `out` holds the elements kept so
far, the last one first.  Empty and `.` elements are dropped; `..` removes the
element before it, is dropped at the root, and is kept at the start of a
relative path. -/
def cleanStep (rooted : Bool) (out : List (List Char)) (e : List Char) : List (List Char) :=
  if e = [] ∨ e = ['.'] then out
  else if e = ['.', '.'] then
    match out with
    | [] => if rooted then [] else [e]
    | top :: rest => if top = ['.', '.'] then e :: out else rest
  else e :: out

/-- The function `filepath.Clean` on the characters of a path. -/
def cleanChars (path : List Char) : List Char :=
  match path with
  | [] => ['.']
  | c :: _ =>
    let rooted : Bool := c = '/'
    let out := ((splitElems path).foldl (cleanStep rooted) []).reverse
    if rooted then '/' :: joinElems out
    else if out = [] then ['.'] else joinElems out

/-- The function `filepath.Clean`. -/
def Clean (path : String) : String := ⟨cleanChars path.data⟩

/-- The function `filepath.IsAbs` (Unix): the path starts with a separator. -/
def IsAbs (path : String) : Bool := path.data.head? = some '/'

/-- The function `filepath.Join`: the arguments from the first non-empty one on
are joined by separators and cleaned; the result is empty when all are. -/
def Join : List String → String
  | [] => ""
  | e :: es =>
    if e = "" then Join es
    else ⟨cleanChars (joinElems ((e :: es).map String.data))⟩

/-- The function `filepath.Base`: the last element of the path, trailing
separators removed first. -/
def Base (path : String) : String :=
  if path = "" then "."
  else
    let stripped := path.data.reverse.dropWhile (fun c => c = '/')
    let last := (stripped.takeWhile (fun c => c ≠ '/')).reverse
    if last = [] then "/" else ⟨last⟩

/-- The elements of a cleaned path as the loop of `filepath.Rel` walks them: a
rooted path starts with an empty element, the empty path has none. -/
def relElems (p : List Char) : List (List Char) :=
  if p = [] then []
  else if p = ['/'] then [[]]
  else splitElems p

/-- The loop of `filepath.Rel`: both paths are advanced past their common
leading elements; what is left of the base and of the target is returned. -/
def relSkip : List (List Char) → List (List Char) → List (List Char) × List (List Char)
  | b :: bs, t :: ts => if t = b then relSkip bs ts else (b :: bs, t :: ts)
  | bs, ts => (bs, ts)

/-- The error value of `filepath.Rel`. -/
def relError (basepath targpath : String) : String :=
  "Rel: can't make " ++ targpath ++ " relative to " ++ basepath

/-- The function `filepath.Rel` (Unix): a path that names `targpath` when joined
to `basepath`; an error when one path is rooted and the other is not, or when
the first element of the base after the common leading elements is `..`.  It
is called on the `AbsPath` of an image, which `filepath.Abs` leaves rooted or
empty. -/
def Rel (basepath targpath : String) : Except String String :=
  let base := cleanChars basepath.data
  let targ := cleanChars targpath.data
  if targ = base then Except.ok "."
  else
    let base := if base = ['.'] then [] else base
    let targ := if targ = ['.'] then [] else targ
    let baseSlashed : Bool := base.head? = some '/'
    let targSlashed : Bool := targ.head? = some '/'
    if baseSlashed ≠ targSlashed then Except.error (relError basepath targpath)
    else
      match relSkip (relElems base) (relElems targ) with
      | (b :: bs, ts) =>
        if b = ['.', '.'] then Except.error (relError basepath targpath)
        else Except.ok ⟨joinElems ((b :: bs).map (fun _ => ['.', '.']) ++ ts)⟩
      | ([], ts) => Except.ok ⟨joinElems ts⟩

/-! ## Data model -/

/-- The type `[]byte`. -/
abbrev Bytes := List Nat

/-- ImageInfo contains metadata about images used in a chart. -/
structure ImageInfo where
  Name : String
  Ref : String
  Path : String
  AbsPath : String
  deriving DecidableEq, Repr

/-- The dynamic values `yaml.Unmarshal` stores in an `interface{}`: the YAML
document is converted to JSON and decoded by `encoding/json`.  A `number` is a
`float64`, kept as its literal; an `object` is a `map[string]interface{}`. -/
inductive Value where
  | null
  | bool (b : Bool)
  | number (lit : String)
  | string (s : String)
  | array (xs : List Value)
  | object (fields : List (String × Value))

/-- The map index expression `v[key]`: the value stored under the key, if any. -/
def Value.index : List (String × Value) → String → Option Value
  | [], _ => none
  | (k, x) :: rest, key => if k = key then some x else Value.index rest key

/-- The Go type of a value, as the verb `%T` prints it. -/
def Value.typeName : Value → String
  | Value.null => "<nil>"
  | Value.bool _ => "bool"
  | Value.number _ => "float64"
  | Value.string _ => "string"
  | Value.array _ => "[]interface \x7b\x7d"
  | Value.object _ => "map[string]interface \x7b\x7d"

/-- The type `fsnotify.Op`, a set of bits. -/
abbrev Op := Nat

/-- The bit `fsnotify.Create`. -/
def Create : Op := 1
/-- The bit `fsnotify.Write`. -/
def Write : Op := 2
/-- The bit `fsnotify.Remove`. -/
def Remove : Op := 4
/-- The bit `fsnotify.Rename`. -/
def Rename : Op := 8
/-- The bit `fsnotify.Chmod`. -/
def Chmod : Op := 16

/-- The type `fsnotify.Event`. -/
structure Event where
  Name : String
  Op : Op
  deriving DecidableEq, Repr

/-- What the goroutine of `watchLoop` receives: a value from `watcher.Events`
or one from `watcher.Errors`. -/
inductive Msg where
  | event (event : Event)
  | error (err : String)
  deriving DecidableEq, Repr

/-- The lines `puts` prints in `imageInfo`. -/
inductive Diag where
  | readFail (path err : String)
  | unmarshalFail (err : String)
  | unhandled (key typeName : String)
  deriving DecidableEq, Repr

/-- The lines written through package `log` in `up.go`. -/
inductive LogLine where
  | installing (releaseName : String)
  | installed (releaseName : String)
  | uninstalling (releaseName : String)
  | fsnotifyEvent (event : Event)
  | fsnotifyError (err : String)
  | fatal (err : String)
  deriving DecidableEq, Repr

/-- A call that leaves the program. -/
inductive Call where
  | getwd
  | chdir (dir : String)
  | stat (name : String)
  | readFile (filename : String)
  | puts (line : Diag)
  | log (line : LogLine)
  | command (pfx name : String) (args : List String)
  | uninstallRelease (rlsName : String) (dryRun : Bool)
  | installRelease (rawVals : Bytes) (rlsName chStr : String) (dryRun : Bool)
  | newWatcher
  deriving DecidableEq, Repr

/-- The answers of the outside, each a function of the calls made so far.  An
error is its message; `none` is the nil error. -/
structure Env where
  /-- The error of `os.Getwd`. -/
  getwd : List Call → Option String
  /-- The directory `os.Chdir` enters from the current directory with the given
  argument, or its error. -/
  chdir : List Call → String → String → Except String String
  /-- The error of `os.Stat`. -/
  stat : List Call → String → Option String
  /-- The result of `ioutil.ReadFile`. -/
  readFile : List Call → String → Except String Bytes
  /-- The result of `yaml.Unmarshal` into a `map[string]interface{}`, its
  entries in the order the following `range` visits them. -/
  unmarshal : List Call → Bytes → Except String (List (String × Value))
  /-- The error of `cmd.StdoutPipe`. -/
  stdoutPipe : List Call → Option String
  /-- The error of `cmd.Start`. -/
  start : List Call → Option String
  /-- The error of `cmd.Wait`. -/
  wait : List Call → Option String
  /-- The error of `helm.UninstallRelease`. -/
  uninstallRelease : List Call → Option String
  /-- The error of `helm.InstallRelease`. -/
  installRelease : List Call → Option String
  /-- The error of `fsnotify.NewWatcher`. -/
  newWatcher : List Call → Option String
  /-- The function `prettyError`, defined elsewhere in package `main`. -/
  prettyError : String → String

/-- The state of the process: its working directory and the calls made. -/
structure World where
  cwd : String
  trace : List Call
  deriving DecidableEq, Repr

/-- A Go function returns or panics. -/
inductive Outcome (α : Type) where
  | returned (a : α)
  | panicked
  deriving DecidableEq, Repr

/-- How `runUp` and `watchLoop` end: by returning an error value, by a panic,
by `log.Fatal`, or blocked on `<-done` with the goroutine consuming events. -/
inductive Ending where
  | returned (err : Option String)
  | panicked
  | fatal
  | watching
  deriving DecidableEq, Repr

/-! ## Calls to the outside -/

/-- The world after one more call. -/
def World.record (w : World) (c : Call) : World :=
  { w with trace := w.trace ++ [c] }

/-- The call `os.Getwd()`: the working directory, or the empty string and an
error. -/
def osGetwd (env : Env) (w : World) : (String × Option String) × World :=
  let w1 := w.record Call.getwd
  match env.getwd w1.trace with
  | none => ((w1.cwd, none), w1)
  | some e => (("", some e), w1)

/-- The call `os.Chdir(dir)`: on success the working directory changes. -/
def osChdir (env : Env) (dir : String) (w : World) : Option String × World :=
  let w1 := w.record (Call.chdir dir)
  match env.chdir w1.trace w1.cwd dir with
  | Except.ok d => (none, { w1 with cwd := d })
  | Except.error e => (some e, w1)

/-- The call `os.Stat(name)`, reduced to its error. -/
def osStat (env : Env) (name : String) (w : World) : Option String × World :=
  let w1 := w.record (Call.stat name)
  (env.stat w1.trace name, w1)

/-- The call `ioutil.ReadFile(filename)`. -/
def ioutilReadFile (env : Env) (filename : String) (w : World) : Except String Bytes × World :=
  let w1 := w.record (Call.readFile filename)
  (env.readFile w1.trace filename, w1)

/-- The function `puts`: one printed line. -/
def puts (line : Diag) (w : World) : World :=
  w.record (Call.puts line)

/-- One line written through package `log`. -/
def logLine (line : LogLine) (w : World) : World :=
  w.record (Call.log line)

/-- The function `filepath.Abs` (Unix): an absolute path is cleaned, any other
is joined to the working directory; an error of `os.Getwd` is passed on with
the empty string. -/
def filepathAbs (env : Env) (path : String) (w : World) : (String × Option String) × World :=
  if IsAbs path then ((Clean path, none), w)
  else
    match osGetwd env w with
    | ((_, some e), w1) => (("", some e), w1)
    | ((wd, none), w1) => ((Join [wd, path], none), w1)

/-- The call `helm.UninstallRelease(rlsName, dryRun)`, reduced to its error. -/
def helmUninstallRelease (env : Env) (rlsName : String) (dryRun : Bool) (w : World) :
    Option String × World :=
  let w1 := w.record (Call.uninstallRelease rlsName dryRun)
  (env.uninstallRelease w1.trace, w1)

/-- The call `helm.InstallRelease(rawVals, rlsName, chStr, dryRun)`, reduced to
its error. -/
def helmInstallRelease (env : Env) (rawVals : Bytes) (rlsName chStr : String) (dryRun : Bool)
    (w : World) : Option String × World :=
  let w1 := w.record (Call.installRelease rawVals rlsName chStr dryRun)
  (env.installRelease w1.trace, w1)

/-! ## build.go -/

/-- The function `execCommand`: the command is created, its output pipe is
opened, it is started and waited for; the first error is returned.  The
goroutine that prints the output lines runs beside these steps, is not joined,
and is left out. -/
def execCommand (env : Env) (pfx cmdName : String) (cmdArgs : List String) (w : World) :
    Option String × World :=
  let w1 := w.record (Call.command pfx cmdName cmdArgs)
  match env.stdoutPipe w1.trace with
  | some err => (some err, w1)
  | none =>
    match env.start w1.trace with
    | some err => (some err, w1)
    | none =>
      match env.wait w1.trace with
      | some err => (some err, w1)
      | none => (none, w1)

/-- The function `buildImg`.  The deferred `os.Chdir(initialDir)` runs on every
return. -/
def buildImg (env : Env) (img : ImageInfo) (w : World) : Option String × World :=
  let ((initialDir, _), w1) := osGetwd env w
  let w2 := (osChdir env img.Path w1).2
  match execCommand env img.Name "docker" ["build", "-t", img.Ref, img.Path] w2 with
  | (some err, w3) => (some err, (osChdir env initialDir w3).2)
  | (none, w3) =>
    match execCommand env img.Name "docker" ["push", img.Ref] w3 with
    | (some err, w4) => (some err, (osChdir env initialDir w4).2)
    | (none, w4) => (none, (osChdir env initialDir w4).2)

/-- The loop `for key, val := range imgs` of `imageInfo`, over the entries in
the order they are visited.  The type assertions `v["Path"].(string)` and
`v["Image"].(string)` panic on an absent or non-string field. -/
def imageInfoLoop (env : Env) :
    List (String × Value) → List ImageInfo → World → Outcome (List ImageInfo) × World
  | [], images, w => (Outcome.returned images, w)
  | (key, val) :: rest, images, w =>
    match val with
    | Value.object v =>
      match Value.index v "Path" with
      | some (Value.string path) =>
        match filepathAbs env path w with
        | ((absPath, _), w1) =>
          match Value.index v "Image" with
          | some (Value.string ref) =>
            imageInfoLoop env rest
              (images ++ [{ Name := key, Ref := ref, Path := path, AbsPath := absPath }]) w1
          | _ => (Outcome.panicked, w1)
      | _ => (Outcome.panicked, w)
    | _ => imageInfoLoop env rest images (puts (Diag.unhandled key val.typeName) w)

/-- The function `imageInfo`. -/
def imageInfo (env : Env) (path : String) (w : World) :
    Outcome (List ImageInfo × Option String) × World :=
  match ioutilReadFile env path w with
  | (Except.error err, w1) => (Outcome.returned ([], some err), puts (Diag.readFail path err) w1)
  | (Except.ok b, w1) =>
    match env.unmarshal w1.trace b with
    | Except.error err => (Outcome.returned ([], some err), puts (Diag.unmarshalFail err) w1)
    | Except.ok imgs =>
      match imageInfoLoop env imgs [] w1 with
      | (Outcome.panicked, w2) => (Outcome.panicked, w2)
      | (Outcome.returned images, w2) => (Outcome.returned (images, none), w2)

/-- The loop `for _, img := range images` of `build`: the result of `buildImg`
is dropped. -/
def buildAll (env : Env) : List ImageInfo → World → World
  | [], w => w
  | img :: rest, w => buildAll env rest (buildImg env img w).2

/-- The function `build`. -/
def build (env : Env) (path : String) (w : World) : Outcome (Option String) × World :=
  match imageInfo env path w with
  | (Outcome.panicked, w1) => (Outcome.panicked, w1)
  | (Outcome.returned (_, some err), w1) => (Outcome.returned (some err), w1)
  | (Outcome.returned (images, none), w1) => (Outcome.returned none, buildAll env images w1)

/-! ## up.go -/

/-- The function `rebuild`. -/
def rebuild (env : Env) (eventPath : String) : List ImageInfo → World → World
  | [], w => w
  | img :: rest, w =>
    match Rel img.AbsPath eventPath with
    | Except.ok _ => rebuild env eventPath rest (buildImg env img w).2
    | Except.error _ => rebuild env eventPath rest w

/-- One round of the `select` in the goroutine of `watchLoop`. -/
def watchStep (env : Env) (vals : Bytes) (releaseName chartPath : String)
    (images : List ImageInfo) (w : World) : Msg → World
  | Msg.event event =>
    if event.Op &&& Chmod = Chmod then w
    else
      let w1 := logLine (LogLine.fsnotifyEvent event) w
      let w2 := rebuild env event.Name images w1
      let w3 := logLine (LogLine.uninstalling releaseName) w2
      let w4 := (helmUninstallRelease env releaseName false w3).2
      let w5 := logLine (LogLine.installing releaseName) w4
      let w6 := (helmInstallRelease env vals releaseName chartPath false w5).2
      logLine (LogLine.installed releaseName) w6
  | Msg.error err => logLine (LogLine.fsnotifyError err) w

/-- The goroutine of `watchLoop` run over the values it receives, in the order
of their arrival. -/
def watchEvents (env : Env) (vals : Bytes) (releaseName chartPath : String)
    (images : List ImageInfo) (msgs : List Msg) (w : World) : World :=
  msgs.foldl (watchStep env vals releaseName chartPath images) w

/-- The function `watchLoop`, for the values `msgs` that reach the goroutine.
The registration (`filepath.Walk` calling `watcher.Add` on every path it
visits under each `AbsPath`, files included) runs in the calling goroutine
beside the event handling and makes no call recorded here; `<-done` never
receives. -/
def watchLoop (env : Env) (vals : Bytes) (releaseName chartPath : String)
    (images : List ImageInfo) (msgs : List Msg) (w : World) : Ending × World :=
  let w1 := w.record Call.newWatcher
  match env.newWatcher w1.trace with
  | some err => (Ending.fatal, logLine (LogLine.fatal err) w1)
  | none => (Ending.watching, watchEvents env vals releaseName chartPath images msgs w1)

/-- The error `errUpNoChart`. -/
def errUpNoChart : String := "no chart found (missing Chart.yaml)"

/-- The function `runUp`. -/
def runUp (env : Env) (msgs : List Msg) (w : World) : Ending × World :=
  let ((cwd, _), w1) := osGetwd env w
  let path := Join [cwd, "helm"]
  match osStat env (Join [path, "Chart.yaml"]) w1 with
  | (some _, w2) => (Ending.returned (some errUpNoChart), w2)
  | (none, w2) =>
    match filepathAbs env path w2 with
    | ((_, some err), w3) => (Ending.returned (some err), w3)
    | ((path, none), w3) =>
      match imageInfo env (Join [path, "images.yaml"]) w3 with
      | (Outcome.panicked, w4) => (Ending.panicked, w4)
      | (Outcome.returned (_, some err), w4) => (Ending.returned (some err), w4)
      | (Outcome.returned (images, none), w4) =>
        match build env (Join [path, "images.yaml"]) w4 with
        | (Outcome.panicked, w5) => (Ending.panicked, w5)
        | (Outcome.returned (some err), w5) => (Ending.returned (some err), w5)
        | (Outcome.returned none, w5) =>
          let ((workingDir, _), w6) := osGetwd env w5
          let releaseName := Base workingDir
          match ioutilReadFile env (Join [path, "images.yaml"]) w6 with
          | (Except.error err, w7) => (Ending.returned (some err), w7)
          | (Except.ok vals, w7) =>
            let w8 := logLine (LogLine.installing releaseName) w7
            match helmInstallRelease env vals releaseName path false w8 with
            | (some err, w9) => (Ending.returned (some (env.prettyError err)), w9)
            | (none, w9) =>
              watchLoop env vals releaseName path images msgs
                (logLine (LogLine.installed releaseName) w9)

/-! ## Vocabulary of the statements -/

/-- The error `execCommand` returns when the history at its call is `h`: the
first error among `StdoutPipe`, `Start` and `Wait`. -/
def execErr (env : Env) (h : List Call) : Option String :=
  match env.stdoutPipe h with
  | some err => some err
  | none =>
    match env.start h with
    | some err => some err
    | none => env.wait h

/-- The build step of an image: `docker build -t Ref Path`, run by
`execCommand` under the name of the image. -/
def buildStep (img : ImageInfo) : Call :=
  Call.command img.Name "docker" ["build", "-t", img.Ref, img.Path]

/-- The publish step of an image: `docker push Ref`. -/
def pushStep (img : ImageInfo) : Call :=
  Call.command img.Name "docker" ["push", img.Ref]

/-- Whether a call runs an external command. -/
def isCommand : Call → Bool
  | Call.command _ _ _ => true
  | _ => false

/-- Whether a call runs `docker build`. -/
def isBuildStep : Call → Bool
  | Call.command _ "docker" ("build" :: _) => true
  | _ => false

/-- Whether a call prints a line of `puts`. -/
def isPuts : Call → Bool
  | Call.puts _ => true
  | _ => false

/-- Whether a call goes to the release server. -/
def isRelease : Call → Bool
  | Call.uninstallRelease _ _ => true
  | Call.installRelease _ _ _ _ => true
  | _ => false

/-- The calls by which a round of the watch loop is observed: the log line of
the event, written right before `rebuild` is called, the `docker build` runs,
and the calls to the release server. -/
def isCycleCall : Call → Bool
  | Call.log (LogLine.fsnotifyEvent _) => true
  | c => isBuildStep c || isRelease c

/-- Whether the goroutine of `watchLoop` goes on to rebuild for a received
value: it is an event and fails the test `event.Op&fsnotify.Chmod ==
fsnotify.Chmod`. -/
def qualifying : Msg → Bool
  | Msg.event event => !(event.Op &&& Chmod == Chmod)
  | Msg.error _ => false

/-- Whether `rebuild` builds an image for an event path: `filepath.Rel` returns
no error. -/
def relOk (eventPath : String) (img : ImageInfo) : Bool :=
  match Rel img.AbsPath eventPath with
  | Except.ok _ => true
  | Except.error _ => false

/-- A field of a manifest entry read as a string, as the type assertion
`v[key].(string)` does; `none` where the assertion panics. -/
def stringField (v : List (String × Value)) (key : String) : Option String :=
  match Value.index v key with
  | some (Value.string s) => some s
  | _ => none

/-- Whether a top-level value of the manifest is a mapping. -/
def isMapping : String × Value → Bool
  | (_, Value.object _) => true
  | _ => false

/-- Whether a top-level entry is free of a mapping with an absent or non-string
`Image` or `Path`. -/
def fieldsOk : String × Value → Bool
  | (_, Value.object v) => (stringField v "Image").isSome && (stringField v "Path").isSome
  | _ => true

/-- The name, reference and path a mapping-valued entry describes. -/
def entryTarget : String × Value → Option (String × String × String)
  | (key, Value.object v) =>
    match stringField v "Image", stringField v "Path" with
    | some ref, some path => some (key, ref, path)
    | _, _ => none
  | _ => none

/-- The line printed for an entry whose value is not a mapping. -/
def entrySkip : String × Value → Option Call
  | (_, Value.object _) => none
  | (key, val) => some (Call.puts (Diag.unhandled key val.typeName))

/-- The absolute form of a path in a working directory: the path cleaned when
it is absolute, else joined to the directory. -/
def absForm (cwd path : String) : String :=
  if IsAbs path then Clean path else Join [cwd, path]

/-- What `filepath.Abs` returns for a path when `os.Getwd`, if it is called,
is called after the history `h` in the directory `cwd`: the absolute form of
the path when the path is absolute or `os.Getwd` succeeds, the empty string
when the path is relative and `os.Getwd` fails. -/
def absAt (env : Env) (h : List Call) (cwd path : String) : String :=
  if IsAbs path then Clean path
  else
    match env.getwd (h ++ [Call.getwd]) with
    | none => Join [cwd, path]
    | some _ => ""

/-- The calls `imageInfo` makes for one well-formed entry: `os.Getwd` for a
mapping whose `Path` is relative, one line of `puts` for a value that is not a
mapping. -/
def entryCalls : String × Value → List Call
  | (_, Value.object v) =>
    match stringField v "Path" with
    | some path => if IsAbs path then [] else [Call.getwd]
    | none => []
  | (key, val) => [Call.puts (Diag.unhandled key val.typeName)]

/-- The targets of the entries of a manifest visited after the history `h` in
the directory `cwd`: one per mapping-valued entry, its `AbsPath` given by
`absAt` at the history reached when the entry is visited. -/
def resolveAll (env : Env) (cwd : String) : List Call → List (String × Value) → List ImageInfo
  | _, [] => []
  | h, e :: rest =>
    (match entryTarget e with
      | some (key, ref, path) =>
        [{ Name := key, Ref := ref, Path := path, AbsPath := absAt env h cwd path }]
      | none => []) ++ resolveAll env cwd (h ++ entryCalls e) rest

/-- The events among the received values for which the goroutine of `watchLoop`
goes on to rebuild, in the order of their arrival. -/
def qualifyingEvents (msgs : List Msg) : List Event :=
  msgs.filterMap fun m =>
    match m with
    | Msg.event event => if event.Op &&& Chmod = Chmod then none else some event
    | Msg.error _ => none

/-- The observed calls of one round of the watch loop for an event: the log
line of the event, a `docker build` for every image `rebuild` builds, then
`helm.UninstallRelease` and `helm.InstallRelease`. -/
def cycle (vals : Bytes) (releaseName chartPath : String) (images : List ImageInfo)
    (event : Event) : List Call :=
  Call.log (LogLine.fsnotifyEvent event) ::
    ((images.filter (relOk event.Name)).map buildStep ++
      [Call.uninstallRelease releaseName false,
        Call.installRelease vals releaseName chartPath false])

/-- The elements `filepath.Clean` keeps for a rooted path: non-empty, free of
separators, and none of them `..`. -/
def RootedElem (e : List Char) : Prop :=
  e ≠ [] ∧ '/' ∉ e ∧ e ≠ ['.', '.']

/-- The chart directory `runUp` works on, with the world in which it goes on to
resolve the manifest: the working directory joined with `helm`, checked for
`Chart.yaml` and made absolute. -/
def runUpChart (env : Env) (w : World) : String × World :=
  let path := Join [(osGetwd env w).1.1, "helm"]
  let w2 := (osStat env (Join [path, "Chart.yaml"]) (osGetwd env w).2).2
  ((filepathAbs env path w2).1.1, (filepathAbs env path w2).2)

/-! ## Concrete worlds -/

/-- A process started in `/work` that has made no call yet. -/
def w0 : World := { cwd := "/work", trace := [] }

/-- The manifest `app: {Image: x/app:dev, Path: ./app}`, parsed. -/
def appManifest : List (String × Value) :=
  [("app", Value.object [("Image", Value.string "x/app:dev"), ("Path", Value.string "./app")])]

/-- The target of `appManifest` resolved in `/work`. -/
def appImg : ImageInfo :=
  { Name := "app", Ref := "x/app:dev", Path := "./app", AbsPath := "/work/app" }

/-- A manifest with two targets and a scalar entry. -/
def twoManifest : List (String × Value) :=
  [("web", Value.object [("Image", Value.string "x/web:dev"), ("Path", Value.string "/src/web")]),
    ("version", Value.number "1"),
    ("db", Value.object [("Image", Value.string "x/db:dev"), ("Path", Value.string "/src/db")])]

/-- An image whose sources are in `/repo/images/foo`. -/
def fooImg : ImageInfo :=
  { Name := "foo", Ref := "x/foo:dev", Path := "images/foo", AbsPath := "/repo/images/foo" }

/-- An image whose sources are in `/repo/images/bar`. -/
def barImg : ImageInfo :=
  { Name := "bar", Ref := "x/bar:dev", Path := "images/bar", AbsPath := "/repo/images/bar" }

/-- An outside where every call succeeds; the manifest read is `appManifest`. -/
def envAllOk : Env where
  getwd := fun _ => none
  chdir := fun _ cwd dir => Except.ok (absForm cwd dir)
  stat := fun _ _ => none
  readFile := fun _ _ => Except.ok [97]
  unmarshal := fun _ _ => Except.ok appManifest
  stdoutPipe := fun _ => none
  start := fun _ => none
  wait := fun _ => none
  uninstallRelease := fun _ => none
  installRelease := fun _ => none
  newWatcher := fun _ => none
  prettyError := fun err => err

/-- As `envAllOk`, but every `docker build` exits with an error. -/
def envBuildFails : Env :=
  { envAllOk with
    wait := fun h =>
      match h.getLast? with
      | some (Call.command _ _ ("build" :: _)) => some "exit status 1"
      | _ => none }

/-- As `envAllOk`, but `os.Getwd` fails: the working directory has been
removed. -/
def envGetwdFails : Env :=
  { envAllOk with getwd := fun _ => some "getwd: no such file or directory" }

/-- As `envBuildFails`, with the manifest `twoManifest`. -/
def envTwoTargets : Env :=
  { envBuildFails with unmarshal := fun _ _ => Except.ok twoManifest }

/-- As `envBuildFails`, but no directory other than `/work` can be entered. -/
def envNoSourceDir : Env :=
  { envBuildFails with
    chdir := fun _ _ dir =>
      if dir = "/work" then Except.ok "/work"
      else Except.error "chdir: no such file or directory" }

/-- A burst of received values: two qualifying events around a `Chmod` event
and a watcher error. -/
def burst : List Msg :=
  [Msg.event { Name := "/work/app/main.c", Op := Write },
    Msg.event { Name := "/work/app/main.c", Op := Chmod },
    Msg.error "too many events",
    Msg.event { Name := "/work/app/new.c", Op := Create }]

/-- The manifest `a: {Path: ./x}` preceded by a well-formed entry: `a` has no
`Image` field. -/
def badManifest : List (String × Value) :=
  [("app", Value.object [("Image", Value.string "x/app:dev"), ("Path", Value.string "./app")]),
    ("a", Value.object [("Path", Value.string "./x")])]

/-- As `envAllOk`, with the entries of `badManifest` visited last to first. -/
def envBadManifest : Env :=
  { envAllOk with unmarshal := fun _ _ => Except.ok badManifest.reverse }

/-! ## filepath.Rel on rooted paths -/

theorem splitElems_no_sep : ∀ (l : List Char), ∀ e ∈ splitElems l, '/' ∉ e := by
  intro l
  induction l with
  | nil => intro e he; simp [splitElems] at he; simp [he]
  | cons c cs ih =>
    intro e he
    unfold splitElems at he
    split at he
    · rcases List.mem_cons.mp he with rfl | he
      · simp
      · exact ih e he
    · rename_i hc
      split at he
      · simp at he
        subst he
        simpa using fun h => hc h.symm
      · rename_i x xs hx
        have hx1 : ∀ e ∈ x :: xs, '/' ∉ e := by rw [← hx]; exact ih
        rcases List.mem_cons.mp he with rfl | he
        · have := hx1 x (List.mem_cons_self _ _)
          simp only [List.mem_cons, not_or]
          exact ⟨fun h => hc h.symm, this⟩
        · exact hx1 e (List.mem_cons_of_mem _ he)

theorem splitElems_of_no_sep : ∀ (e : List Char), '/' ∉ e → splitElems e = [e] := by
  intro e
  induction e with
  | nil => intro _; rfl
  | cons c cs ih =>
    intro h
    simp only [List.mem_cons, not_or] at h
    have hc : ¬ c = '/' := fun hc => h.1 hc.symm
    simp [splitElems, hc, ih h.2]

theorem splitElems_append_sep : ∀ (e rest : List Char), '/' ∉ e →
    splitElems (e ++ '/' :: rest) = e :: splitElems rest := by
  intro e
  induction e with
  | nil => intro rest _; simp [splitElems]
  | cons c cs ih =>
    intro rest h
    simp only [List.mem_cons, not_or] at h
    have hc : ¬ c = '/' := fun hc => h.1 hc.symm
    simp [splitElems, hc, ih rest h.2]

theorem splitElems_joinElems : ∀ (out : List (List Char)), out ≠ [] →
    (∀ e ∈ out, '/' ∉ e) → splitElems (joinElems out) = out := by
  intro out
  induction out with
  | nil => intro h; exact absurd rfl h
  | cons e es ih =>
    intro _ hall
    cases es with
    | nil => simpa [joinElems] using splitElems_of_no_sep e (hall e (List.mem_cons_self _ _))
    | cons e1 es1 =>
      simp only [joinElems]
      rw [splitElems_append_sep e _ (hall e (List.mem_cons_self _ _)),
        ih (by simp) (fun x hx => hall x (List.mem_cons_of_mem _ hx))]

theorem cleanStep_rooted (out : List (List Char)) (e : List Char)
    (hout : ∀ x ∈ out, RootedElem x) (he : '/' ∉ e) :
    ∀ x ∈ cleanStep true out e, RootedElem x := by
  unfold cleanStep
  split
  · exact hout
  · rename_i h1
    split
    · cases out with
      | nil => simp
      | cons top rest =>
        simp only
        have htop := (hout top (List.mem_cons_self _ _)).2.2
        simp only [htop, if_false]
        exact fun x hx => hout x (List.mem_cons_of_mem _ hx)
    · rename_i h2
      intro x hx
      rcases List.mem_cons.mp hx with rfl | hx
      · exact ⟨fun h => h1 (Or.inl h), he, h2⟩
      · exact hout x hx

theorem cleanFold_rooted : ∀ (elems out : List (List Char)),
    (∀ x ∈ out, RootedElem x) → (∀ e ∈ elems, '/' ∉ e) →
    ∀ x ∈ elems.foldl (cleanStep true) out, RootedElem x := by
  intro elems
  induction elems with
  | nil => intro out hout _; exact hout
  | cons e es ih =>
    intro out hout hel
    simp only [List.foldl_cons]
    exact ih _ (cleanStep_rooted out e hout (hel e (List.mem_cons_self _ _)))
      (fun x hx => hel x (List.mem_cons_of_mem _ hx))

theorem joinElems_ne_nil : ∀ (out : List (List Char)), out ≠ [] →
    (∀ e ∈ out, e ≠ []) → joinElems out ≠ [] := by
  intro out hne hall
  cases out with
  | nil => exact absurd rfl hne
  | cons e es =>
    cases es with
    | nil => simpa [joinElems] using hall e (List.mem_cons_self _ _)
    | cons e1 es1 => simp [joinElems]

theorem relElems_clean_rooted (cs : List Char) :
    cleanChars ('/' :: cs) ≠ ['.'] ∧ (cleanChars ('/' :: cs)).head? = some '/' ∧
      ∃ out, relElems (cleanChars ('/' :: cs)) = [] :: out ∧ ∀ x ∈ out, RootedElem x := by
  have hgood : ∀ x ∈ ((splitElems ('/' :: cs)).foldl (cleanStep true) []).reverse,
      RootedElem x := by
    intro x hx
    exact cleanFold_rooted _ [] (by simp) (splitElems_no_sep _) x (List.mem_reverse.mp hx)
  have hclean : cleanChars ('/' :: cs) =
      '/' :: joinElems ((splitElems ('/' :: cs)).foldl (cleanStep true) []).reverse := by
    simp [cleanChars]
  rw [hclean]
  refine ⟨by simp, by simp, ?_⟩
  generalize ((splitElems ('/' :: cs)).foldl (cleanStep true) []).reverse = out at hgood
  refine ⟨out, ?_, hgood⟩
  cases hout : out with
  | nil => simp [relElems, joinElems]
  | cons e es =>
    have hne : joinElems (e :: es) ≠ [] := by
      apply joinElems_ne_nil _ (by simp)
      intro x hx
      exact (hgood x (hout ▸ hx)).1
    have hsplit : splitElems (joinElems (e :: es)) = e :: es := by
      apply splitElems_joinElems _ (by simp)
      intro x hx
      exact (hgood x (hout ▸ hx)).2.1
    simp [relElems, hne, splitElems, hsplit]

theorem relSkip_fst_subset : ∀ (bs ts : List (List Char)), ∀ x ∈ (relSkip bs ts).1, x ∈ bs := by
  intro bs
  induction bs with
  | nil => intro ts x hx; cases ts <;> simp [relSkip] at hx
  | cons b bs ih =>
    intro ts x hx
    cases ts with
    | nil => simpa [relSkip] using hx
    | cons t ts =>
      simp only [relSkip] at hx
      split at hx
      · exact List.mem_cons_of_mem _ (ih ts x hx)
      · exact hx

theorem Rel_rooted (basepath targpath : String)
    (hb : IsAbs basepath = true) (ht : IsAbs targpath = true) :
    ∃ r, Rel basepath targpath = Except.ok r := by
  obtain ⟨bd⟩ := basepath
  obtain ⟨td⟩ := targpath
  simp only [IsAbs, decide_eq_true_eq] at hb ht
  cases bd with
  | nil => simp at hb
  | cons bc bcs =>
    cases td with
    | nil => simp at ht
    | cons tc tcs =>
      simp only [List.head?_cons, Option.some.injEq] at hb ht
      subst hb ht
      obtain ⟨hb1, hb2, bout, hbe, hbg⟩ := relElems_clean_rooted bcs
      obtain ⟨ht1, ht2, _, _, _⟩ := relElems_clean_rooted tcs
      unfold Rel
      simp only [hb1, ht1, if_false, hb2, ht2]
      split
      · exact ⟨_, rfl⟩
      · simp only [ne_eq, not_true_eq_false, if_false]
        have hsub := relSkip_fst_subset (relElems (cleanChars ('/' :: bcs)))
          (relElems (cleanChars ('/' :: tcs)))
        split
        · rename_i b bs ts heq
          have hmem : b ∈ relElems (cleanChars ('/' :: bcs)) := by
            apply hsub
            rw [heq]
            exact List.mem_cons_self _ _
          have hne : b ≠ ['.', '.'] := by
            rw [hbe] at hmem
            rcases List.mem_cons.mp hmem with rfl | hmem
            · simp
            · exact (hbg b hmem).2.2
          simp only [hne, if_false]
          exact ⟨_, rfl⟩
        · exact ⟨_, rfl⟩

/-! ## The calls to the outside -/

theorem osGetwd_snd (env : Env) (w : World) : (osGetwd env w).2 = w.record Call.getwd := by
  unfold osGetwd
  dsimp only
  split <;> rfl

theorem osGetwd_fst (env : Env) (w : World) :
    (osGetwd env w).1 =
      match env.getwd (w.trace ++ [Call.getwd]) with
      | none => (w.cwd, none)
      | some e => ("", some e) := by
  unfold osGetwd
  dsimp only [World.record]
  split <;> simp_all

theorem osChdir_trace (env : Env) (dir : String) (w : World) :
    (osChdir env dir w).2.trace = w.trace ++ [Call.chdir dir] := by
  unfold osChdir
  dsimp only
  split <;> rfl

theorem osChdir_cwd_of_ok (env : Env) (dir d : String) (w : World)
    (h : env.chdir (w.trace ++ [Call.chdir dir]) w.cwd dir = Except.ok d) :
    (osChdir env dir w).2.cwd = d := by
  unfold osChdir
  dsimp only [World.record]
  rw [h]

theorem execCommand_eq (env : Env) (pfx cmdName : String) (cmdArgs : List String) (w : World) :
    execCommand env pfx cmdName cmdArgs w =
      (execErr env (w.trace ++ [Call.command pfx cmdName cmdArgs]),
        w.record (Call.command pfx cmdName cmdArgs)) := by
  unfold execCommand execErr
  dsimp only [World.record]
  split
  · simp_all
  · split
    · simp_all
    · split <;> simp_all

/-! ## buildImg -/

theorem buildImg_eq (env : Env) (img : ImageInfo) (w : World) :
    buildImg env img w =
      let initialDir := (osGetwd env w).1.1
      let w2 := (osChdir env img.Path (w.record Call.getwd)).2
      let w3 := w2.record (buildStep img)
      match execErr env w3.trace with
      | some err => (some err, (osChdir env initialDir w3).2)
      | none =>
        let w4 := w3.record (pushStep img)
        (execErr env w4.trace, (osChdir env initialDir w4).2) := by
  unfold buildImg
  simp only [execCommand_eq, osGetwd_snd]
  dsimp only [buildStep, pushStep, World.record]
  cases h1 : execErr env
      ((osChdir env img.Path { cwd := w.cwd, trace := w.trace ++ [Call.getwd] }).2.trace ++
        [Call.command img.Name "docker" ["build", "-t", img.Ref, img.Path]]) with
  | some e => simp
  | none =>
    simp only
    cases h2 : execErr env
        ((osChdir env img.Path { cwd := w.cwd, trace := w.trace ++ [Call.getwd] }).2.trace ++
          [Call.command img.Name "docker" ["build", "-t", img.Ref, img.Path]] ++
          [Call.command img.Name "docker" ["push", img.Ref]]) with
    | some e => simp
    | none => simp

theorem buildImg_fst (env : Env) (img : ImageInfo) (w : World) :
    (buildImg env img w).1 =
      match execErr env (w.trace ++ [Call.getwd, Call.chdir img.Path, buildStep img]) with
      | some err => some err
      | none =>
        execErr env (w.trace ++ [Call.getwd, Call.chdir img.Path, buildStep img, pushStep img]) := by
  rw [buildImg_eq]
  simp only [World.record, osChdir_trace, List.append_assoc, List.singleton_append]
  split <;> simp_all

theorem buildImg_trace (env : Env) (img : ImageInfo) (w : World) :
    (buildImg env img w).2.trace =
      w.trace ++ [Call.getwd, Call.chdir img.Path, buildStep img] ++
        (match execErr env (w.trace ++ [Call.getwd, Call.chdir img.Path, buildStep img]) with
          | some _ => []
          | none => [pushStep img]) ++
        [Call.chdir (osGetwd env w).1.1] := by
  rw [buildImg_eq]
  simp only [World.record, osChdir_trace, List.append_assoc, List.singleton_append]
  split <;> simp_all [osChdir_trace]

/-- C5. `buildImg` runs the build step `docker build -t Ref Path` first.  When
that step fails the publish step `docker push Ref` is not run and the error of
the build step is returned; when it succeeds the publish step is run once,
after it, and its result is returned. -/
theorem buildImg_build_then_publish (env : Env) (img : ImageInfo) (w : World) :
    (buildImg env img w).1 =
        (match execErr env (w.trace ++ [Call.getwd, Call.chdir img.Path, buildStep img]) with
          | some err => some err
          | none =>
            execErr env
              (w.trace ++ [Call.getwd, Call.chdir img.Path, buildStep img, pushStep img])) ∧
      (buildImg env img w).2.trace =
        w.trace ++ [Call.getwd, Call.chdir img.Path, buildStep img] ++
          (match execErr env (w.trace ++ [Call.getwd, Call.chdir img.Path, buildStep img]) with
            | some _ => []
            | none => [pushStep img]) ++
          [Call.chdir (osGetwd env w).1.1] :=
  ⟨buildImg_fst env img w, buildImg_trace env img w⟩

/-- C9. When `buildImg` returns, the working directory of the process is the one
it was called in, provided `os.Getwd` could read it at entry and the directory
can still be entered when the deferred `os.Chdir` runs.  Neither the outcome of
the build and publish steps nor that of the change into the path of the image
matters. -/
theorem buildImg_restores_cwd (env : Env) (img : ImageInfo) (w : World)
    (hget : env.getwd (w.trace ++ [Call.getwd]) = none)
    (hback : ∀ c, env.chdir (buildImg env img w).2.trace c w.cwd = Except.ok w.cwd) :
    (buildImg env img w).2.cwd = w.cwd := by
  have hdir : (osGetwd env w).1.1 = w.cwd := by
    rw [osGetwd_fst, hget]
  have htr := buildImg_trace env img w
  rw [hdir] at htr
  rw [htr] at hback
  rw [buildImg_eq]
  simp only [hdir, World.record, osChdir_trace, List.append_assoc, List.singleton_append,
    List.cons_append, List.nil_append] at hback ⊢
  cases he : execErr env (w.trace ++ [Call.getwd, Call.chdir img.Path, buildStep img]) with
  | some e =>
    simp only [he] at hback ⊢
    apply osChdir_cwd_of_ok
    simpa [osChdir_trace] using hback _
  | none =>
    simp only [he] at hback ⊢
    apply osChdir_cwd_of_ok
    simpa [osChdir_trace] using hback _

/-- Witness of C9: the path of the image cannot be entered and the build step
fails; the working directory is `/work` again. -/
theorem buildImg_restores_cwd_witness :
    (buildImg envNoSourceDir appImg w0).2.cwd = w0.cwd :=
  buildImg_restores_cwd envNoSourceDir appImg w0 rfl (fun _ => rfl)

/-! ## imageInfo -/

theorem filepathAbs_eq (env : Env) (path : String) (w : World) :
    filepathAbs env path w =
      if IsAbs path then ((Clean path, none), w)
      else
        match env.getwd (w.trace ++ [Call.getwd]) with
        | none => ((Join [w.cwd, path], none), w.record Call.getwd)
        | some e => (("", some e), w.record Call.getwd) := by
  unfold filepathAbs osGetwd
  dsimp only [World.record]
  split
  · rfl
  · cases env.getwd (w.trace ++ [Call.getwd]) <;> rfl

theorem filepathAbs_cwd (env : Env) (path : String) (w : World) :
    (filepathAbs env path w).2.cwd = w.cwd := by
  rw [filepathAbs_eq]
  split
  · rfl
  · split <;> rfl

theorem filepathAbs_filter (env : Env) (path : String) (w : World) (p : Call → Bool)
    (hp : p Call.getwd = false) :
    (filepathAbs env path w).2.trace.filter p = w.trace.filter p := by
  rw [filepathAbs_eq]
  split
  · rfl
  · split <;> simp [World.record, List.filter_append, hp]

theorem filepathAbs_value (env : Env) (path : String) (w : World) :
    (filepathAbs env path w).1.1 = absForm w.cwd path ∨
      (IsAbs path = false ∧ (filepathAbs env path w).1.1 = "" ∧
        env.getwd (w.trace ++ [Call.getwd]) ≠ none) := by
  rw [filepathAbs_eq]
  unfold absForm
  split
  · exact Or.inl rfl
  · rename_i h
    cases hg : env.getwd (w.trace ++ [Call.getwd]) with
    | none => exact Or.inl rfl
    | some e => exact Or.inr ⟨by simpa using h, rfl, by simp⟩

theorem imageInfoLoop_ok (env : Env) (cwd : String) :
    ∀ (imgs : List (String × Value)) (acc : List ImageInfo) (w : World),
      w.cwd = cwd → (∀ e ∈ imgs, fieldsOk e = true) →
      ∃ new w', imageInfoLoop env imgs acc w = (Outcome.returned (acc ++ new), w') ∧
        w'.cwd = cwd ∧
        new.map (fun i => (i.Name, i.Ref, i.Path)) = imgs.filterMap entryTarget ∧
        (∀ i ∈ new, i.AbsPath = absForm cwd i.Path ∨
          (IsAbs i.Path = false ∧ i.AbsPath = "" ∧ ∃ h, env.getwd h ≠ none)) ∧
        w'.trace.filter isPuts = w.trace.filter isPuts ++ imgs.filterMap entrySkip := by
  intro imgs
  induction imgs with
  | nil =>
    intro acc w hw _
    exact ⟨[], w, by simp [imageInfoLoop], hw, rfl, by simp, by simp⟩
  | cons e rest ih =>
    intro acc w hw hwf
    obtain ⟨key, val⟩ := e
    have hrest : ∀ e ∈ rest, fieldsOk e = true := fun e he => hwf e (List.mem_cons_of_mem _ he)
    have hhead : fieldsOk (key, val) = true := hwf _ (List.mem_cons_self _ _)
    cases val with
    | object v =>
      simp only [fieldsOk, Bool.and_eq_true, Option.isSome_iff_exists] at hhead
      obtain ⟨⟨ref, href⟩, ⟨path, hpath⟩⟩ := hhead
      have hP : Value.index v "Path" = some (Value.string path) := by
        unfold stringField at hpath
        split at hpath <;> simp_all
      have hI : Value.index v "Image" = some (Value.string ref) := by
        unfold stringField at href
        split at href <;> simp_all
      obtain ⟨new, w', hloop, hcwd, hmap, habs, hputs⟩ :=
        ih (acc ++ [{ Name := key, Ref := ref, Path := path,
                      AbsPath := (filepathAbs env path w).1.1 }])
          (filepathAbs env path w).2 (by rw [filepathAbs_cwd, hw]) hrest
      refine ⟨{ Name := key, Ref := ref, Path := path,
                AbsPath := (filepathAbs env path w).1.1 } :: new, w', ?_, hcwd, ?_, ?_, ?_⟩
      · simp only [imageInfoLoop, hP, hI]
        rw [hloop]
        simp
      · simp [entryTarget, href, hpath, hmap]
      · intro i hi
        rcases List.mem_cons.mp hi with rfl | hi
        · rcases filepathAbs_value env path w with h | h
          · exact Or.inl (by simpa [hw] using h)
          · exact Or.inr ⟨h.1, h.2.1, _, h.2.2⟩
        · exact habs i hi
      · rw [hputs, filepathAbs_filter env path w isPuts rfl]
        simp [entrySkip]
    | null =>
      obtain ⟨new, w', hloop, hcwd, hmap, habs, hputs⟩ :=
        ih acc (puts (Diag.unhandled key Value.null.typeName) w) hw hrest
      refine ⟨new, w', by simpa [imageInfoLoop] using hloop, hcwd, ?_, habs, ?_⟩
      · simp [entryTarget, hmap]
      · rw [hputs]
        simp [entrySkip, puts, World.record, List.filter_append, isPuts]
    | bool b =>
      obtain ⟨new, w', hloop, hcwd, hmap, habs, hputs⟩ :=
        ih acc (puts (Diag.unhandled key (Value.bool b).typeName) w) hw hrest
      refine ⟨new, w', by simpa [imageInfoLoop] using hloop, hcwd, ?_, habs, ?_⟩
      · simp [entryTarget, hmap]
      · rw [hputs]
        simp [entrySkip, puts, World.record, List.filter_append, isPuts]
    | number lit =>
      obtain ⟨new, w', hloop, hcwd, hmap, habs, hputs⟩ :=
        ih acc (puts (Diag.unhandled key (Value.number lit).typeName) w) hw hrest
      refine ⟨new, w', by simpa [imageInfoLoop] using hloop, hcwd, ?_, habs, ?_⟩
      · simp [entryTarget, hmap]
      · rw [hputs]
        simp [entrySkip, puts, World.record, List.filter_append, isPuts]
    | string str =>
      obtain ⟨new, w', hloop, hcwd, hmap, habs, hputs⟩ :=
        ih acc (puts (Diag.unhandled key (Value.string str).typeName) w) hw hrest
      refine ⟨new, w', by simpa [imageInfoLoop] using hloop, hcwd, ?_, habs, ?_⟩
      · simp [entryTarget, hmap]
      · rw [hputs]
        simp [entrySkip, puts, World.record, List.filter_append, isPuts]
    | array xs =>
      obtain ⟨new, w', hloop, hcwd, hmap, habs, hputs⟩ :=
        ih acc (puts (Diag.unhandled key (Value.array xs).typeName) w) hw hrest
      refine ⟨new, w', by simpa [imageInfoLoop] using hloop, hcwd, ?_, habs, ?_⟩
      · simp [entryTarget, hmap]
      · rw [hputs]
        simp [entrySkip, puts, World.record, List.filter_append, isPuts]

theorem imageInfoLoop_filter (env : Env) (p : Call → Bool) (hg : p Call.getwd = false)
    (hp : ∀ d, p (Call.puts d) = false) :
    ∀ (imgs : List (String × Value)) (acc : List ImageInfo) (w : World),
      (imageInfoLoop env imgs acc w).2.trace.filter p = w.trace.filter p := by
  intro imgs
  induction imgs with
  | nil => intro acc w; rfl
  | cons e rest ih =>
    intro acc w
    obtain ⟨key, val⟩ := e
    have hputs : ∀ d, (puts d w).trace.filter p = w.trace.filter p := by
      intro d
      simp [puts, World.record, List.filter_append, hp]
    cases val with
    | object v =>
      simp only [imageInfoLoop]
      split
      · split
        · rw [ih, filepathAbs_filter env _ w p hg]
        · exact filepathAbs_filter env _ w p hg
      · rfl
    | null => simp only [imageInfoLoop]; rw [ih, hputs]
    | bool b => simp only [imageInfoLoop]; rw [ih, hputs]
    | number lit => simp only [imageInfoLoop]; rw [ih, hputs]
    | string str => simp only [imageInfoLoop]; rw [ih, hputs]
    | array xs => simp only [imageInfoLoop]; rw [ih, hputs]

theorem imageInfoLoop_step_ok (env : Env) (key : String) (val : Value)
    (rest : List (String × Value)) (acc : List ImageInfo) (w : World)
    (h : fieldsOk (key, val) = true) :
    ∃ acc1 w1, imageInfoLoop env ((key, val) :: rest) acc w = imageInfoLoop env rest acc1 w1 := by
  cases val with
  | object v =>
    simp only [fieldsOk, Bool.and_eq_true, Option.isSome_iff_exists] at h
    obtain ⟨⟨ref, href⟩, ⟨path, hpath⟩⟩ := h
    have hP : Value.index v "Path" = some (Value.string path) := by
      unfold stringField at hpath
      split at hpath <;> simp_all
    have hI : Value.index v "Image" = some (Value.string ref) := by
      unfold stringField at href
      split at href <;> simp_all
    exact ⟨_, _, by simp only [imageInfoLoop, hP, hI]; rfl⟩
  | null => exact ⟨_, _, by simp only [imageInfoLoop]; rfl⟩
  | bool b => exact ⟨_, _, by simp only [imageInfoLoop]; rfl⟩
  | number lit => exact ⟨_, _, by simp only [imageInfoLoop]; rfl⟩
  | string str => exact ⟨_, _, by simp only [imageInfoLoop]; rfl⟩
  | array xs => exact ⟨_, _, by simp only [imageInfoLoop]; rfl⟩

theorem imageInfoLoop_step_bad (env : Env) (key : String) (val : Value)
    (rest : List (String × Value)) (acc : List ImageInfo) (w : World)
    (h : fieldsOk (key, val) = false) :
    (imageInfoLoop env ((key, val) :: rest) acc w).1 = Outcome.panicked := by
  cases val with
  | object v =>
    simp only [imageInfoLoop]
    split
    · rename_i path hP
      split
      · rename_i ref hI
        simp [fieldsOk, stringField, hP, hI] at h
      · rfl
    · rfl
  | null => simp [fieldsOk] at h
  | bool b => simp [fieldsOk] at h
  | number lit => simp [fieldsOk] at h
  | string str => simp [fieldsOk] at h
  | array xs => simp [fieldsOk] at h

theorem imageInfoLoop_panics (env : Env) :
    ∀ (imgs : List (String × Value)) (acc : List ImageInfo) (w : World),
      (∃ e ∈ imgs, fieldsOk e = false) →
      (imageInfoLoop env imgs acc w).1 = Outcome.panicked := by
  intro imgs
  induction imgs with
  | nil => intro acc w h; simp at h
  | cons e rest ih =>
    intro acc w h
    obtain ⟨key, val⟩ := e
    cases hh : fieldsOk (key, val) with
    | false => exact imageInfoLoop_step_bad env key val rest acc w hh
    | true =>
      obtain ⟨acc1, w1, hstep⟩ := imageInfoLoop_step_ok env key val rest acc w hh
      rw [hstep]
      apply ih
      obtain ⟨e, he, hbad⟩ := h
      rcases List.mem_cons.mp he with rfl | he
      · rw [hh] at hbad; cases hbad
      · exact ⟨e, he, hbad⟩

theorem imageInfo_filter (env : Env) (path : String) (w : World) (p : Call → Bool)
    (hg : p Call.getwd = false) (hp : ∀ d, p (Call.puts d) = false)
    (hr : ∀ f, p (Call.readFile f) = false) :
    (imageInfo env path w).2.trace.filter p = w.trace.filter p := by
  unfold imageInfo ioutilReadFile
  dsimp only
  have hw1 : (w.record (Call.readFile path)).trace.filter p = w.trace.filter p := by
    simp [World.record, List.filter_append, hr]
  cases env.readFile (w.record (Call.readFile path)).trace path with
  | error err => simp [puts, World.record, List.filter_append, hp, hr]
  | ok b =>
    dsimp only
    cases env.unmarshal (w.record (Call.readFile path)).trace b with
    | error err => simp [puts, World.record, List.filter_append, hp, hr]
    | ok imgs =>
      dsimp only
      have := imageInfoLoop_filter env p hg hp imgs [] (w.record (Call.readFile path))
      rw [hw1] at this
      split
      · rename_i h; rw [h] at this; exact this
      · rename_i h; rw [h] at this; exact this

theorem filepathAbs_exact (env : Env) (path : String) (w : World) :
    filepathAbs env path w =
      (((absAt env w.trace w.cwd path),
          (if IsAbs path then none else env.getwd (w.trace ++ [Call.getwd]))),
        { cwd := w.cwd, trace := w.trace ++ (if IsAbs path then [] else [Call.getwd]) }) := by
  rw [filepathAbs_eq]
  unfold absAt
  cases hp : IsAbs path
  · simp only [Bool.false_eq_true, if_false]
    cases hg : env.getwd (w.trace ++ [Call.getwd]) <;> simp [World.record]
  · simp

theorem imageInfoLoop_exact (env : Env) :
    ∀ (imgs : List (String × Value)) (acc : List ImageInfo) (w : World),
      (∀ e ∈ imgs, fieldsOk e = true) →
      imageInfoLoop env imgs acc w =
        (Outcome.returned (acc ++ resolveAll env w.cwd w.trace imgs),
          { cwd := w.cwd, trace := w.trace ++ imgs.flatMap entryCalls }) := by
  intro imgs
  induction imgs with
  | nil => intro acc w _; simp [imageInfoLoop, resolveAll]
  | cons e rest ih =>
    intro acc w hwf
    obtain ⟨key, val⟩ := e
    have hrest : ∀ e ∈ rest, fieldsOk e = true := fun e he => hwf e (List.mem_cons_of_mem _ he)
    have hhead : fieldsOk (key, val) = true := hwf _ (List.mem_cons_self _ _)
    cases val with
    | object v =>
      simp only [fieldsOk, Bool.and_eq_true, Option.isSome_iff_exists] at hhead
      obtain ⟨⟨ref, href⟩, ⟨path, hpath⟩⟩ := hhead
      have hP : Value.index v "Path" = some (Value.string path) := by
        unfold stringField at hpath
        split at hpath <;> simp_all
      have hI : Value.index v "Image" = some (Value.string ref) := by
        unfold stringField at href
        split at href <;> simp_all
      simp only [imageInfoLoop, hP, hI, filepathAbs_exact]
      rw [ih _ _ hrest]
      simp [resolveAll, entryTarget, entryCalls, href, hpath, List.flatMap_cons]
    | null =>
      simp only [imageInfoLoop]
      rw [ih _ _ hrest]
      simp [resolveAll, entryTarget, entryCalls, puts, World.record, List.flatMap_cons]
    | bool b =>
      simp only [imageInfoLoop]
      rw [ih _ _ hrest]
      simp [resolveAll, entryTarget, entryCalls, puts, World.record, List.flatMap_cons]
    | number lit =>
      simp only [imageInfoLoop]
      rw [ih _ _ hrest]
      simp [resolveAll, entryTarget, entryCalls, puts, World.record, List.flatMap_cons]
    | string str =>
      simp only [imageInfoLoop]
      rw [ih _ _ hrest]
      simp [resolveAll, entryTarget, entryCalls, puts, World.record, List.flatMap_cons]
    | array xs =>
      simp only [imageInfoLoop]
      rw [ih _ _ hrest]
      simp [resolveAll, entryTarget, entryCalls, puts, World.record, List.flatMap_cons]

theorem resolveAll_append (env : Env) (cwd : String) :
    ∀ (pre post : List (String × Value)) (h : List Call),
      resolveAll env cwd h (pre ++ post) =
        resolveAll env cwd h pre ++ resolveAll env cwd (h ++ pre.flatMap entryCalls) post := by
  intro pre
  induction pre with
  | nil => intro post h; simp [resolveAll]
  | cons e rest ih =>
    intro post h
    have := ih post (h ++ entryCalls e)
    simp only [List.append_assoc] at this
    simp only [List.cons_append, resolveAll, List.flatMap_cons, List.append_assoc]
    rw [← this]
    rfl

/-- Counterexample to C6: the manifest `app` has the relative path `./app` and
`os.Getwd` fails; `imageInfo` succeeds and returns the target with an empty
`AbsPath`, not with the absolute form `/work/app` of its path. -/
theorem imageInfo_abspath_empty_when_getwd_fails :
    imageInfo envGetwdFails "/chart/images.yaml" w0 =
        (Outcome.returned
          ([{ Name := "app", Ref := "x/app:dev", Path := "./app", AbsPath := "" }], none),
          { cwd := "/work", trace := [Call.readFile "/chart/images.yaml", Call.getwd] }) ∧
      absForm w0.cwd "./app" = "/work/app" := by
  decide

/-- C6, amended.  A parsed manifest all of whose mapping-valued entries have
string-valued `Image` and `Path` fields resolves: `imageInfo` returns, without
error, exactly one target per mapping-valued entry, in the order the entries
are visited, with `Name` the key, `Ref` the `Image` field, `Path` the `Path`
field, and `AbsPath` the absolute form of `Path` when `Path` is absolute or the
`os.Getwd` call made for that entry succeeds, and the empty string when `Path`
is relative and that call fails.  An entry that is not a mapping yields no
target and exactly one line of `puts`; no other line is printed. -/
theorem imageInfo_resolves (env : Env) (path : String) (w : World) (b : Bytes)
    (imgs : List (String × Value))
    (hread : env.readFile (w.trace ++ [Call.readFile path]) path = Except.ok b)
    (hparse : env.unmarshal (w.trace ++ [Call.readFile path]) b = Except.ok imgs)
    (hwf : ∀ e ∈ imgs, fieldsOk e = true) :
    imageInfo env path w =
        (Outcome.returned (resolveAll env w.cwd (w.trace ++ [Call.readFile path]) imgs, none),
          { cwd := w.cwd, trace := w.trace ++ Call.readFile path :: imgs.flatMap entryCalls }) ∧
      (resolveAll env w.cwd (w.trace ++ [Call.readFile path]) imgs).map
          (fun i => (i.Name, i.Ref, i.Path)) = imgs.filterMap entryTarget ∧
      (resolveAll env w.cwd (w.trace ++ [Call.readFile path]) imgs).length =
        (imgs.filter isMapping).length ∧
      (∀ pre e post key ref p, imgs = pre ++ e :: post → entryTarget e = some (key, ref, p) →
        { Name := key, Ref := ref, Path := p,
          AbsPath := absAt env (w.trace ++ Call.readFile path :: pre.flatMap entryCalls)
            w.cwd p } ∈ resolveAll env w.cwd (w.trace ++ [Call.readFile path]) imgs) ∧
      (w.trace ++ Call.readFile path :: imgs.flatMap entryCalls).filter isPuts =
        w.trace.filter isPuts ++ imgs.filterMap entrySkip ∧
      (imgs.filterMap entrySkip).length = (imgs.filter (fun e => !isMapping e)).length := by
  have hexact := imageInfoLoop_exact env imgs [] (w.record (Call.readFile path)) hwf
  obtain ⟨new, w1, hloop, _, hmap, _, hputs⟩ :=
    imageInfoLoop_ok env w.cwd imgs [] (w.record (Call.readFile path)) rfl hwf
  rw [hexact] at hloop
  simp only [World.record, List.nil_append, Prod.mk.injEq, Outcome.returned.injEq] at hloop
  obtain ⟨hnew, hw1⟩ := hloop
  subst hnew hw1
  have hlenT : ∀ l : List (String × Value), (∀ e ∈ l, fieldsOk e = true) →
      (l.filterMap entryTarget).length = (l.filter isMapping).length := by
    intro l
    induction l with
    | nil => intro _; rfl
    | cons e rest ih =>
      intro hl
      have hrest := ih (fun e he => hl e (List.mem_cons_of_mem _ he))
      have hhead := hl e (List.mem_cons_self _ _)
      obtain ⟨key, val⟩ := e
      cases val with
      | object v =>
        simp only [fieldsOk, Bool.and_eq_true, Option.isSome_iff_exists] at hhead
        obtain ⟨⟨ref, href⟩, ⟨p, hpath⟩⟩ := hhead
        simp [List.filterMap_cons, List.filter_cons, entryTarget, isMapping, href, hpath, hrest]
      | null => simpa [List.filterMap_cons, List.filter_cons, entryTarget, isMapping] using hrest
      | bool _ => simpa [List.filterMap_cons, List.filter_cons, entryTarget, isMapping] using hrest
      | number _ => simpa [List.filterMap_cons, List.filter_cons, entryTarget, isMapping] using hrest
      | string _ => simpa [List.filterMap_cons, List.filter_cons, entryTarget, isMapping] using hrest
      | array _ => simpa [List.filterMap_cons, List.filter_cons, entryTarget, isMapping] using hrest
  have hlenS : ∀ l : List (String × Value),
      (l.filterMap entrySkip).length = (l.filter (fun e => !isMapping e)).length := by
    intro l
    induction l with
    | nil => rfl
    | cons e rest ih =>
      obtain ⟨key, val⟩ := e
      cases val <;>
        simp [List.filterMap_cons, List.filter_cons, entrySkip, isMapping, ih]
  refine ⟨?_, hmap, ?_, ?_, ?_, hlenS imgs⟩
  · unfold imageInfo ioutilReadFile
    simp only [World.record, hread, hparse] at hexact ⊢
    rw [hexact]
    simp
  · have := congrArg List.length hmap
    rw [List.length_map] at this
    rw [this, hlenT imgs hwf]
  · intro pre e post key ref p himgs htarget
    subst himgs
    rw [resolveAll_append]
    apply List.mem_append_right
    simp only [resolveAll, htarget, List.append_assoc, List.singleton_append]
    exact List.mem_cons_self _ _
  · simp only [World.record, List.append_assoc, List.singleton_append] at hputs
    rw [hputs]
    simp [List.filter_append, isPuts]

/-- Witness of C6, amended: the manifest `app` resolved while `os.Getwd` fails. -/
theorem imageInfo_resolves_witness :
    imageInfo envGetwdFails "/chart/images.yaml" w0 =
        (Outcome.returned
          (resolveAll envGetwdFails w0.cwd (w0.trace ++ [Call.readFile "/chart/images.yaml"])
            appManifest, none),
          { cwd := w0.cwd,
            trace := w0.trace ++
              Call.readFile "/chart/images.yaml" :: appManifest.flatMap entryCalls }) ∧
      (resolveAll envGetwdFails w0.cwd (w0.trace ++ [Call.readFile "/chart/images.yaml"])
          appManifest).map (fun i => (i.Name, i.Ref, i.Path)) =
        appManifest.filterMap entryTarget ∧
      (resolveAll envGetwdFails w0.cwd (w0.trace ++ [Call.readFile "/chart/images.yaml"])
          appManifest).length = (appManifest.filter isMapping).length ∧
      (∀ pre e post key ref p, appManifest = pre ++ e :: post →
        entryTarget e = some (key, ref, p) →
        { Name := key, Ref := ref, Path := p,
          AbsPath := absAt envGetwdFails
            (w0.trace ++ Call.readFile "/chart/images.yaml" :: pre.flatMap entryCalls)
            w0.cwd p } ∈
          resolveAll envGetwdFails w0.cwd (w0.trace ++ [Call.readFile "/chart/images.yaml"])
            appManifest) ∧
      (w0.trace ++ Call.readFile "/chart/images.yaml" :: appManifest.flatMap entryCalls).filter
          isPuts = w0.trace.filter isPuts ++ appManifest.filterMap entrySkip ∧
      (appManifest.filterMap entrySkip).length =
        (appManifest.filter (fun e => !isMapping e)).length :=
  imageInfo_resolves envGetwdFails "/chart/images.yaml" w0 [97] appManifest rfl rfl (by decide)

/-- C7. A parsed manifest with a mapping-valued entry whose `Image` or `Path`
field is absent or not a string fails as a whole: `imageInfo` panics and
returns no target list, whatever the other entries are and in whatever order
the entries are visited. -/
theorem imageInfo_bad_entry_panics (env : Env) (path : String) (w : World) (b : Bytes)
    (imgs visited : List (String × Value))
    (hread : env.readFile (w.trace ++ [Call.readFile path]) path = Except.ok b)
    (hparse : env.unmarshal (w.trace ++ [Call.readFile path]) b = Except.ok visited)
    (horder : visited.Perm imgs)
    (hbad : ∃ e ∈ imgs, fieldsOk e = false) :
    (imageInfo env path w).1 = Outcome.panicked := by
  have hbad1 : ∃ e ∈ visited, fieldsOk e = false := by
    obtain ⟨e, he, hf⟩ := hbad
    exact ⟨e, (horder.mem_iff).mpr he, hf⟩
  have := imageInfoLoop_panics env visited [] (w.record (Call.readFile path)) hbad1
  unfold imageInfo ioutilReadFile
  simp only [World.record, hread, hparse] at this ⊢
  split
  · rfl
  · rename_i h
    rw [h] at this
    cases this

/-- Witness of C7: the entry `a` has no `Image` field; the entries are visited
last to first. -/
theorem imageInfo_bad_entry_panics_witness :
    (imageInfo envBadManifest "/chart/images.yaml" w0).1 = Outcome.panicked :=
  imageInfo_bad_entry_panics envBadManifest "/chart/images.yaml" w0 [97] badManifest
    badManifest.reverse rfl rfl (List.reverse_perm badManifest) (by decide)

/-! ## build and rebuild -/

theorem isBuildStep_buildStep (img : ImageInfo) : isBuildStep (buildStep img) = true := by
  simp [isBuildStep, buildStep]

theorem isBuildStep_pushStep (img : ImageInfo) : isBuildStep (pushStep img) = false := by
  simp [isBuildStep, pushStep]

theorem isCycleCall_buildStep (img : ImageInfo) : isCycleCall (buildStep img) = true := by
  simp [isCycleCall, isBuildStep, buildStep]

theorem isCycleCall_pushStep (img : ImageInfo) : isCycleCall (pushStep img) = false := by
  simp [isCycleCall, isBuildStep, isRelease, pushStep]

theorem buildImg_filter (env : Env) (img : ImageInfo) (w : World) (p : Call → Bool)
    (hg : p Call.getwd = false) (hc : ∀ d, p (Call.chdir d) = false)
    (hpush : p (pushStep img) = false) :
    (buildImg env img w).2.trace.filter p = w.trace.filter p ++ [buildStep img].filter p := by
  rw [buildImg_trace]
  split <;> simp [List.filter_append, List.filter_cons, hg, hc, hpush]

theorem buildAll_filter (env : Env) (p : Call → Bool)
    (hg : p Call.getwd = false) (hc : ∀ d, p (Call.chdir d) = false)
    (hpush : ∀ img, p (pushStep img) = false) :
    ∀ (images : List ImageInfo) (w : World),
      (buildAll env images w).trace.filter p =
        w.trace.filter p ++ (images.map buildStep).filter p := by
  intro images
  induction images with
  | nil => intro w; simp [buildAll]
  | cons img rest ih =>
    intro w
    simp only [buildAll]
    rw [ih, buildImg_filter env img w p hg hc (hpush img)]
    cases hb : p (buildStep img) <;> simp [List.filter_cons, hb]

theorem rebuild_filter (env : Env) (eventPath : String) (p : Call → Bool)
    (hg : p Call.getwd = false) (hc : ∀ d, p (Call.chdir d) = false)
    (hpush : ∀ img, p (pushStep img) = false) :
    ∀ (images : List ImageInfo) (w : World),
      (rebuild env eventPath images w).trace.filter p =
        w.trace.filter p ++ ((images.filter (relOk eventPath)).map buildStep).filter p := by
  intro images
  induction images with
  | nil => intro w; simp [rebuild]
  | cons img rest ih =>
    intro w
    simp only [rebuild]
    cases hrel : Rel img.AbsPath eventPath with
    | ok r =>
      simp only
      rw [ih, buildImg_filter env img w p hg hc (hpush img)]
      cases hb : p (buildStep img) <;> simp [List.filter_cons, relOk, hrel, hb]
    | error e =>
      simp only
      rw [ih]
      simp [List.filter_cons, relOk, hrel]

theorem filter_map_buildStep (p : Call → Bool) (hb : ∀ img, p (buildStep img) = true)
    (images : List ImageInfo) : (images.map buildStep).filter p = images.map buildStep := by
  rw [List.filter_eq_self]
  intro c hc
  obtain ⟨img, _, rfl⟩ := List.mem_map.mp hc
  exact hb img

theorem filepathAbs_trace (env : Env) (path : String) (w : World) :
    (filepathAbs env path w).2.trace = w.trace ++ (if IsAbs path then [] else [Call.getwd]) := by
  rw [filepathAbs_eq]
  split
  · simp
  · split <;> rfl

theorem build_of_imageInfo (env : Env) (path : String) (w w1 : World) (images : List ImageInfo)
    (h : imageInfo env path w = (Outcome.returned (images, none), w1)) :
    build env path w = (Outcome.returned none, buildAll env images w1) := by
  unfold build
  rw [h]

/-- C10. When the manifest resolves to a list of targets, `build` runs the build
step of every target, once each and in the order of the list, whatever the
outcomes of the steps of the other targets; it returns nil. -/
theorem build_attempts_every_target (env : Env) (path : String) (w w1 : World)
    (images : List ImageInfo)
    (h : imageInfo env path w = (Outcome.returned (images, none), w1)) :
    (build env path w).1 = Outcome.returned none ∧
      (build env path w).2.trace.filter isBuildStep =
        w.trace.filter isBuildStep ++ images.map buildStep := by
  rw [build_of_imageInfo env path w w1 images h]
  refine ⟨rfl, ?_⟩
  have h1 : w1.trace.filter isBuildStep = w.trace.filter isBuildStep := by
    have := imageInfo_filter env path w isBuildStep rfl (fun _ => rfl) (fun _ => rfl)
    rw [h] at this
    exact this
  simp only
  rw [buildAll_filter env isBuildStep rfl (fun _ => rfl) isBuildStep_pushStep, h1,
    filter_map_buildStep isBuildStep isBuildStep_buildStep]

/-- Witness of C10: two targets whose `docker build` both fail are both
attempted. -/
theorem build_attempts_every_target_witness :
    (build envTwoTargets "/chart/images.yaml" w0).1 = Outcome.returned none ∧
      (build envTwoTargets "/chart/images.yaml" w0).2.trace.filter isBuildStep =
        w0.trace.filter isBuildStep ++
          [{ Name := "web", Ref := "x/web:dev", Path := "/src/web", AbsPath := "/src/web" },
            { Name := "db", Ref := "x/db:dev", Path := "/src/db", AbsPath := "/src/db" }].map
            buildStep :=
  build_attempts_every_target envTwoTargets "/chart/images.yaml" w0
    { cwd := "/work",
      trace := [Call.readFile "/chart/images.yaml",
        Call.puts (Diag.unhandled "version" "float64")] }
    _ (by decide)

/-- Counterexample to C4: the manifest has the single target `app`, its
`docker build` fails, and `build` returns nil after running that one command. -/
theorem build_returns_nil_when_docker_build_fails :
    execErr envBuildFails
        [Call.readFile "/chart/images.yaml", Call.getwd, Call.getwd, Call.chdir "./app",
          buildStep appImg] = some "exit status 1" ∧
      build envBuildFails "/chart/images.yaml" w0 =
        (Outcome.returned none,
          { cwd := "/work",
            trace := [Call.readFile "/chart/images.yaml", Call.getwd, Call.getwd,
              Call.chdir "./app", buildStep appImg, Call.chdir "/work"] }) := by
  decide

/-- C4, amended.  For a manifest with a single well-formed target, `build` runs
`docker build` once for that target, runs `docker push` once after it exactly
when the `docker build` succeeded, and returns nil whatever the outcome of the
two commands. -/
theorem build_single_target (env : Env) (path : String) (w : World) (b : Bytes)
    (key ref p : String) (v : List (String × Value))
    (hread : env.readFile (w.trace ++ [Call.readFile path]) path = Except.ok b)
    (hparse : env.unmarshal (w.trace ++ [Call.readFile path]) b =
      Except.ok [(key, Value.object v)])
    (himage : stringField v "Image" = some ref) (hpath : stringField v "Path" = some p) :
    (build env path w).1 = Outcome.returned none ∧
      (build env path w).2.trace.filter isCommand =
        w.trace.filter isCommand ++
          (match execErr env
              (w.trace ++ Call.readFile path :: (if IsAbs p then [] else [Call.getwd]) ++
                [Call.getwd, Call.chdir p, Call.command key "docker" ["build", "-t", ref, p]]) with
            | some _ => [Call.command key "docker" ["build", "-t", ref, p]]
            | none =>
              [Call.command key "docker" ["build", "-t", ref, p],
                Call.command key "docker" ["push", ref]]) := by
  have hP : Value.index v "Path" = some (Value.string p) := by
    unfold stringField at hpath
    split at hpath <;> simp_all
  have hI : Value.index v "Image" = some (Value.string ref) := by
    unfold stringField at himage
    split at himage <;> simp_all
  have hinfo : imageInfo env path w =
      (Outcome.returned
        ([{ Name := key, Ref := ref, Path := p,
            AbsPath := (filepathAbs env p (w.record (Call.readFile path))).1.1 }], none),
        (filepathAbs env p (w.record (Call.readFile path))).2) := by
    unfold imageInfo ioutilReadFile
    simp only [World.record, hread, hparse, imageInfoLoop, hP, hI, List.nil_append]
  rw [build_of_imageInfo env path w _ _ hinfo]
  refine ⟨rfl, ?_⟩
  simp only [buildAll, buildImg_trace, filepathAbs_trace, World.record, buildStep, pushStep,
    List.append_assoc, List.singleton_append, List.cons_append, List.nil_append]
  cases habs : IsAbs p
  · simp only [Bool.false_eq_true, if_false, List.cons_append, List.nil_append]
    split <;> simp [List.filter_append, List.filter_cons, isCommand]
  · simp only [if_true, List.cons_append, List.nil_append]
    split <;> simp [List.filter_append, List.filter_cons, isCommand]

/-- Witness of C4, amended: the manifest `app`, with a failing `docker build`. -/
theorem build_single_target_witness :
    (build envBuildFails "/chart/images.yaml" w0).1 = Outcome.returned none ∧
      (build envBuildFails "/chart/images.yaml" w0).2.trace.filter isCommand =
        w0.trace.filter isCommand ++
          (match execErr envBuildFails
              (w0.trace ++ Call.readFile "/chart/images.yaml" ::
                  (if IsAbs "./app" then [] else [Call.getwd]) ++
                [Call.getwd, Call.chdir "./app",
                  Call.command "app" "docker" ["build", "-t", "x/app:dev", "./app"]]) with
            | some _ => [Call.command "app" "docker" ["build", "-t", "x/app:dev", "./app"]]
            | none =>
              [Call.command "app" "docker" ["build", "-t", "x/app:dev", "./app"],
                Call.command "app" "docker" ["push", "x/app:dev"]]) :=
  build_single_target envBuildFails "/chart/images.yaml" w0 [97] "app" "x/app:dev" "./app"
    [("Image", Value.string "x/app:dev"), ("Path", Value.string "./app")] rfl rfl rfl rfl

/-- C1, at an input where the code departs from it: with the images `foo` and
`bar` watched, an event at `/repo/images/bar/main.c` makes `rebuild` build
`foo`, whose `AbsPath` is `/repo/images/foo`, before it builds `bar`:
`filepath.Rel` answers `../bar/main.c` without an error. -/
theorem rebuild_builds_image_not_above_event (env : Env) (w : World) :
    Rel fooImg.AbsPath "/repo/images/bar/main.c" = Except.ok "../bar/main.c" ∧
      rebuild env "/repo/images/bar/main.c" [fooImg, barImg] w =
        (buildImg env barImg (buildImg env fooImg w).2).2 := by
  have hfoo : Rel fooImg.AbsPath "/repo/images/bar/main.c" = Except.ok "../bar/main.c" := by rfl
  have hbar : Rel barImg.AbsPath "/repo/images/bar/main.c" = Except.ok "main.c" := by rfl
  exact ⟨hfoo, by simp only [rebuild, hfoo, hbar]⟩

/-- Between rooted paths `filepath.Rel` never fails, so for a rooted event path
`rebuild` builds every image whose `AbsPath` is rooted, as `build` does. -/
theorem rebuild_rooted (env : Env) (eventPath : String) (he : IsAbs eventPath = true) :
    ∀ (images : List ImageInfo) (w : World), (∀ img ∈ images, IsAbs img.AbsPath = true) →
      rebuild env eventPath images w = buildAll env images w := by
  intro images
  induction images with
  | nil => intro w _; rfl
  | cons img rest ih =>
    intro w h
    obtain ⟨r, hr⟩ := Rel_rooted img.AbsPath eventPath (h img (List.mem_cons_self _ _)) he
    simp only [rebuild, buildAll, hr]
    exact ih _ (fun x hx => h x (List.mem_cons_of_mem _ hx))

/-! ## The watch loop -/

theorem chmod_test_iff (op : Nat) : op &&& Chmod = Chmod ↔ op.testBit 4 = true := by
  have h := Nat.and_two_pow op 4
  have h16 : (2 : Nat) ^ 4 = 16 := by norm_num
  rw [h16] at h
  unfold Chmod
  rw [h]
  cases op.testBit 4 <;> simp

theorem watchStep_event_skip (env : Env) (vals : Bytes) (releaseName chartPath : String)
    (images : List ImageInfo) (w : World) (event : Event)
    (h : event.Op &&& Chmod = Chmod) :
    watchStep env vals releaseName chartPath images w (Msg.event event) = w := by
  simp only [watchStep, h, if_true]

theorem watchStep_event_eq (env : Env) (vals : Bytes) (releaseName chartPath : String)
    (images : List ImageInfo) (w : World) (event : Event)
    (h : ¬ event.Op &&& Chmod = Chmod) :
    watchStep env vals releaseName chartPath images w (Msg.event event) =
      { cwd := (rebuild env event.Name images (logLine (LogLine.fsnotifyEvent event) w)).cwd,
        trace := (rebuild env event.Name images (logLine (LogLine.fsnotifyEvent event) w)).trace ++
          [Call.log (LogLine.uninstalling releaseName),
            Call.uninstallRelease releaseName false,
            Call.log (LogLine.installing releaseName),
            Call.installRelease vals releaseName chartPath false,
            Call.log (LogLine.installed releaseName)] } := by
  simp only [watchStep, h, if_false, logLine, World.record, helmUninstallRelease,
    helmInstallRelease, List.append_assoc, List.singleton_append, List.cons_append,
    List.nil_append]

theorem watchStep_cycle (env : Env) (vals : Bytes) (releaseName chartPath : String)
    (images : List ImageInfo) (w : World) (event : Event)
    (h : ¬ event.Op &&& Chmod = Chmod) :
    (watchStep env vals releaseName chartPath images w (Msg.event event)).trace.filter
        isCycleCall =
      w.trace.filter isCycleCall ++ cycle vals releaseName chartPath images event := by
  rw [watchStep_event_eq env vals releaseName chartPath images w event h]
  simp only [List.filter_append]
  rw [rebuild_filter env event.Name isCycleCall rfl (fun _ => rfl) isCycleCall_pushStep,
    filter_map_buildStep isCycleCall isCycleCall_buildStep]
  simp [logLine, World.record, List.filter_append, List.filter_cons, isCycleCall, isBuildStep,
    isRelease, cycle]

theorem watchEvents_cycles (env : Env) (vals : Bytes) (releaseName chartPath : String)
    (images : List ImageInfo) :
    ∀ (msgs : List Msg) (w : World),
      (watchEvents env vals releaseName chartPath images msgs w).trace.filter isCycleCall =
        w.trace.filter isCycleCall ++
          (qualifyingEvents msgs).flatMap (cycle vals releaseName chartPath images) := by
  intro msgs
  induction msgs with
  | nil => intro w; simp [watchEvents, qualifyingEvents]
  | cons m rest ih =>
    intro w
    have hstep : watchEvents env vals releaseName chartPath images (m :: rest) w =
        watchEvents env vals releaseName chartPath images rest
          (watchStep env vals releaseName chartPath images w m) := rfl
    rw [hstep, ih]
    cases m with
    | error err =>
      simp [watchStep, logLine, World.record, List.filter_append, isCycleCall, isBuildStep,
        isRelease, qualifyingEvents]
    | event event =>
      by_cases h : event.Op &&& Chmod = Chmod
      · rw [watchStep_event_skip env vals releaseName chartPath images w event h]
        simp [qualifyingEvents, h]
      · rw [watchStep_cycle env vals releaseName chartPath images w event h]
        simp [qualifyingEvents, h, List.filterMap_cons]

/-- Counterexample to C2: an event whose `Op` is `Write|Chmod` is not exactly
`Chmod`, yet the watch loop skips it: no rebuild, no call at all. -/
theorem write_chmod_event_is_skipped :
    Write ||| Chmod ≠ Chmod ∧
      watchStep envAllOk [97] "work" "/work/helm" [appImg] w0
        (Msg.event { Name := "/work/app/main.c", Op := Write ||| Chmod }) = w0 := by
  decide

/-- C2, amended.  An event whose `Op` contains the bit `Chmod`, alone or
together with other bits, never triggers a rebuild: the watch loop goes back to
waiting without any call.  An event whose `Op` does not contain the bit
triggers one: its log line is written, `rebuild` runs for its path, and the
release is uninstalled and installed. -/
theorem watchStep_rebuilds_unless_chmod_bit (env : Env) (vals : Bytes)
    (releaseName chartPath : String) (images : List ImageInfo) (w : World) (event : Event) :
    watchStep env vals releaseName chartPath images w (Msg.event event) =
      if event.Op.testBit 4 then w
      else
        { cwd := (rebuild env event.Name images (logLine (LogLine.fsnotifyEvent event) w)).cwd,
          trace :=
            (rebuild env event.Name images (logLine (LogLine.fsnotifyEvent event) w)).trace ++
              [Call.log (LogLine.uninstalling releaseName),
                Call.uninstallRelease releaseName false,
                Call.log (LogLine.installing releaseName),
                Call.installRelease vals releaseName chartPath false,
                Call.log (LogLine.installed releaseName)] } := by
  by_cases h : event.Op &&& Chmod = Chmod
  · rw [watchStep_event_skip env vals releaseName chartPath images w event h,
      if_pos ((chmod_test_iff event.Op).mp h)]
  · rw [watchStep_event_eq env vals releaseName chartPath images w event h, if_neg]
    exact fun hb => h ((chmod_test_iff event.Op).mpr hb)

/-- Counterexample to C3: the `docker build` of the rebuild fails, and the
watch loop still calls `UninstallRelease` and `InstallRelease` for the event. -/
theorem watch_redeploys_after_failed_rebuild :
    (buildImg envBuildFails appImg
        (logLine (LogLine.fsnotifyEvent { Name := "/work/app/main.c", Op := Write }) w0)).1 =
        some "exit status 1" ∧
      (watchStep envBuildFails [97] "work" "/work/helm" [appImg] w0
          (Msg.event { Name := "/work/app/main.c", Op := Write })).trace =
        [Call.log (LogLine.fsnotifyEvent { Name := "/work/app/main.c", Op := Write }),
          Call.getwd, Call.chdir "./app", buildStep appImg, Call.chdir "/work",
          Call.log (LogLine.uninstalling "work"),
          Call.uninstallRelease "work" false,
          Call.log (LogLine.installing "work"),
          Call.installRelease [97] "work" "/work/helm" false,
          Call.log (LogLine.installed "work")] := by
  decide

/-- C3, amended.  For every qualifying event the watch loop, after `rebuild` has
run, calls `UninstallRelease` once and then `InstallRelease` once before it
goes back to waiting, whether the builds of the rebuild failed or not:
`rebuild` returns nothing and the errors of `buildImg` are dropped. -/
theorem watchStep_redeploys (env : Env) (vals : Bytes) (releaseName chartPath : String)
    (images : List ImageInfo) (w : World) (event : Event)
    (hq : qualifying (Msg.event event) = true) :
    (watchStep env vals releaseName chartPath images w (Msg.event event)).trace.filter
        isRelease =
      w.trace.filter isRelease ++
        [Call.uninstallRelease releaseName false,
          Call.installRelease vals releaseName chartPath false] := by
  have h : ¬ event.Op &&& Chmod = Chmod := by
    simpa [qualifying] using hq
  rw [watchStep_event_eq env vals releaseName chartPath images w event h]
  simp only [List.filter_append]
  rw [rebuild_filter env event.Name isRelease rfl (fun _ => rfl) (fun _ => rfl)]
  have hnone : ∀ l : List ImageInfo, (l.map buildStep).filter isRelease = [] := by
    intro l
    rw [List.filter_eq_nil_iff]
    intro c hc
    obtain ⟨img, _, rfl⟩ := List.mem_map.mp hc
    simp [isRelease, buildStep]
  rw [hnone]
  simp [logLine, World.record, List.filter_append, List.filter_cons, isRelease]

/-- Witness of C3, amended: a `Write` event whose rebuild fails. -/
theorem watchStep_redeploys_witness :
    (watchStep envBuildFails [97] "work" "/work/helm" [appImg] w0
        (Msg.event { Name := "/work/app/main.c", Op := Write })).trace.filter isRelease =
      w0.trace.filter isRelease ++
        [Call.uninstallRelease "work" false,
          Call.installRelease [97] "work" "/work/helm" false] :=
  watchStep_redeploys envBuildFails [97] "work" "/work/helm" [appImg] w0
    { Name := "/work/app/main.c", Op := Write } (by decide)

theorem build_returned_none (env : Env) (path : String) (w we : World)
    (h : build env path w = (Outcome.returned none, we)) :
    ∃ (built : List ImageInfo) (w1 : World),
      imageInfo env path w = (Outcome.returned (built, none), w1) ∧
        we = buildAll env built w1 := by
  unfold build at h
  rcases hr : imageInfo env path w with ⟨o, w1⟩
  rw [hr] at h
  cases o with
  | panicked => simp at h
  | returned r =>
    obtain ⟨images, err⟩ := r
    cases err with
    | some e => simp at h
    | none =>
      simp only [Prod.mk.injEq, true_and] at h
      exact ⟨images, w1, rfl, h.symm⟩

theorem osGetwd_cycleCalls (env : Env) (w : World) :
    (osGetwd env w).2.trace.filter isCycleCall = w.trace.filter isCycleCall := by
  rw [osGetwd_snd]
  simp [World.record, List.filter_append, isCycleCall, isBuildStep, isRelease]

/-- C8. Once `runUp` has installed the release and entered the watch loop, the
values the goroutine receives are handled one at a time, in the order of their
arrival, none merged with another.  Each qualifying event yields its log line
and one `rebuild` over the images `runUp` resolved (a `docker build` for every
image of that list that `rebuild` builds, once each and in the order of the
list), then one `UninstallRelease` of the release name, then one
`InstallRelease` with the payload, release name and chart path of the initial
install; N qualifying events yield N such rounds.  The outcomes of the builds
and of the uninstall call play no part. -/
theorem runUp_watch_cycles (env : Env) (msgs : List Msg) (w w1 : World)
    (h : runUp env msgs w = (Ending.watching, w1)) :
    ∃ (images : List ImageInfo) (wd : World) (built : List ImageInfo) (wd1 : World)
      (vals : Bytes),
      imageInfo env (Join [(runUpChart env w).1, "images.yaml"]) (runUpChart env w).2 =
          (Outcome.returned (images, none), wd) ∧
        imageInfo env (Join [(runUpChart env w).1, "images.yaml"]) wd =
          (Outcome.returned (built, none), wd1) ∧
        (ioutilReadFile env (Join [(runUpChart env w).1, "images.yaml"])
            (osGetwd env (buildAll env built wd1)).2).1 = Except.ok vals ∧
        w1.trace.filter isCycleCall =
          w.trace.filter isCycleCall ++ built.map buildStep ++
            Call.installRelease vals (Base (osGetwd env (buildAll env built wd1)).1.1)
                (runUpChart env w).1 false ::
              (qualifyingEvents msgs).flatMap
                (cycle vals (Base (osGetwd env (buildAll env built wd1)).1.1)
                  (runUpChart env w).1 images) := by
  unfold runUp at h
  have ha := osGetwd_cycleCalls env w
  have hchart : runUpChart env w =
      ((filepathAbs env (Join [(osGetwd env w).1.1, "helm"])
          (osStat env (Join [Join [(osGetwd env w).1.1, "helm"], "Chart.yaml"])
            (osGetwd env w).2).2).1.1,
        (filepathAbs env (Join [(osGetwd env w).1.1, "helm"])
          (osStat env (Join [Join [(osGetwd env w).1.1, "helm"], "Chart.yaml"])
            (osGetwd env w).2).2).2) := rfl
  rcases hg : osGetwd env w with ⟨⟨cwd, e0⟩, wa⟩
  rw [hg] at h ha hchart
  dsimp only at h ha hchart
  have hb : (osStat env (Join [Join [cwd, "helm"], "Chart.yaml"]) wa).2.trace.filter isCycleCall =
      wa.trace.filter isCycleCall := by
    simp [osStat, World.record, List.filter_append, isCycleCall, isBuildStep, isRelease]
  rcases hs : osStat env (Join [Join [cwd, "helm"], "Chart.yaml"]) wa with ⟨serr, wb⟩
  rw [hs] at h hb hchart
  cases serr with
  | some e => simp at h
  | none =>
    dsimp only at h hb hchart
    have hc := filepathAbs_filter env (Join [cwd, "helm"]) wb isCycleCall rfl
    rcases hab : filepathAbs env (Join [cwd, "helm"]) wb with ⟨⟨path, aerr⟩, wc⟩
    rw [hab] at h hc hchart
    cases aerr with
    | some e => simp at h
    | none =>
      dsimp only at h hc hchart
      rw [hchart]
      dsimp only
      have hd := imageInfo_filter env (Join [path, "images.yaml"]) wc isCycleCall rfl
        (fun _ => rfl) (fun _ => rfl)
      rcases hi : imageInfo env (Join [path, "images.yaml"]) wc with ⟨o, wd⟩
      rw [hi] at h hd
      cases o with
      | panicked => simp at h
      | returned r =>
        obtain ⟨images, ierr⟩ := r
        cases ierr with
        | some e => simp at h
        | none =>
          dsimp only at h hd
          rcases hbd : build env (Join [path, "images.yaml"]) wd with ⟨bo, we⟩
          rw [hbd] at h
          cases bo with
          | panicked => simp at h
          | returned berr =>
            cases berr with
            | some e => simp at h
            | none =>
              dsimp only at h
              obtain ⟨built, wd1, hi2, hwe⟩ := build_returned_none env _ wd we hbd
              have hd1 := imageInfo_filter env (Join [path, "images.yaml"]) wd isCycleCall rfl
                (fun _ => rfl) (fun _ => rfl)
              rw [hi2] at hd1
              dsimp only at hd1
              have he : we.trace.filter isCycleCall =
                  wd.trace.filter isCycleCall ++ built.map buildStep := by
                rw [hwe, buildAll_filter env isCycleCall rfl (fun _ => rfl)
                  isCycleCall_pushStep, hd1,
                  filter_map_buildStep isCycleCall isCycleCall_buildStep]
              subst hwe
              have hf := osGetwd_cycleCalls env (buildAll env built wd1)
              rcases hg2 : osGetwd env (buildAll env built wd1) with ⟨⟨workingDir, e1⟩, wf⟩
              rw [hg2] at h hf
              dsimp only at h hf
              simp only [ioutilReadFile] at h
              cases hrf : env.readFile (wf.record (Call.readFile (Join [path, "images.yaml"]))).trace
                  (Join [path, "images.yaml"]) with
              | error e => rw [hrf] at h; simp at h
              | ok vals =>
                rw [hrf] at h
                simp only [helmInstallRelease] at h
                split at h
                · simp at h
                · rename_i w9 hinst
                  simp only [Prod.mk.injEq] at hinst
                  obtain ⟨_, rfl⟩ := hinst
                  simp only [watchLoop] at h
                  split at h
                  · simp at h
                  · simp only [Prod.mk.injEq, true_and] at h
                    subst h
                    refine ⟨images, wd, built, wd1, vals, rfl, hi2, ?_, ?_⟩
                    · rw [hg2]
                      exact hrf
                    · rw [hg2, watchEvents_cycles]
                      simp [logLine, World.record, List.filter_append, List.filter_cons,
                        isCycleCall, isBuildStep, isRelease, hf, he, hd, hc, hb, ha]

/-- Witness of C8: a burst handled after a successful start. -/
theorem runUp_watch_cycles_witness :
    ∃ (images : List ImageInfo) (wd : World) (built : List ImageInfo) (wd1 : World)
      (vals : Bytes),
      imageInfo envAllOk (Join [(runUpChart envAllOk w0).1, "images.yaml"])
          (runUpChart envAllOk w0).2 = (Outcome.returned (images, none), wd) ∧
        imageInfo envAllOk (Join [(runUpChart envAllOk w0).1, "images.yaml"]) wd =
          (Outcome.returned (built, none), wd1) ∧
        (ioutilReadFile envAllOk (Join [(runUpChart envAllOk w0).1, "images.yaml"])
            (osGetwd envAllOk (buildAll envAllOk built wd1)).2).1 = Except.ok vals ∧
        (runUp envAllOk burst w0).2.trace.filter isCycleCall =
          w0.trace.filter isCycleCall ++ built.map buildStep ++
            Call.installRelease vals
                (Base (osGetwd envAllOk (buildAll envAllOk built wd1)).1.1)
                (runUpChart envAllOk w0).1 false ::
              (qualifyingEvents burst).flatMap
                (cycle vals (Base (osGetwd envAllOk (buildAll envAllOk built wd1)).1.1)
                  (runUpChart envAllOk w0).1 images) :=
  runUp_watch_cycles envAllOk burst w0 (runUp envAllOk burst w0).2 (by decide)

end Helm
